import Mathlib

/-!
Verification of the image-based ingredient recognition pipeline of the
recipe-agent repository.

The development shallowly embeds the Python modules
`src/mcp_tools/ingredients.py`, `src/models/models.py` (namespace `Mcp`
below together with the shared helpers) and the flat legacy module
`ingredients.py` (namespace `Legacy`).  External effects (HTTP fetch, the
Gemini vision call, PIL re-encoding, `json.loads`) are passed in as
explicit oracle parameters; everything else is translated directly from
the source.  Bytes are modelled as `List Nat`, Python floats as `Rat`
(only order comparisons and exact decimal constants occur in the code),
Python dicts as association lists with first-match lookup and
insert-or-overwrite update, raised exceptions as `Except`/`Option`
results.
-/

namespace RecipeAgent

/-! ## String helpers (Python `str.lower`, `in`, `str.strip`) -/

/-- ASCII upper-to-lower pairs; models Python `str.lower` on the ASCII
letters (the only case-bearing characters the pipeline manipulates). -/
def asciiLowerPairs : List (Char × Char) :=
  [('A', 'a'), ('B', 'b'), ('C', 'c'), ('D', 'd'), ('E', 'e'), ('F', 'f'),
   ('G', 'g'), ('H', 'h'), ('I', 'i'), ('J', 'j'), ('K', 'k'), ('L', 'l'),
   ('M', 'm'), ('N', 'n'), ('O', 'o'), ('P', 'p'), ('Q', 'q'), ('R', 'r'),
   ('S', 's'), ('T', 't'), ('U', 'u'), ('V', 'v'), ('W', 'w'), ('X', 'x'),
   ('Y', 'y'), ('Z', 'z')]

/-- Lower-case one character (identity outside the ASCII uppercase range). -/
def lowerChar (c : Char) : Char :=
  match asciiLowerPairs.find? (fun p => p.1 == c) with
  | some p => p.2
  | none => c

/-- Python `s.lower()`. -/
def lowerStr (s : String) : String :=
  String.mk (s.toList.map lowerChar)

/-- ASCII whitespace, as stripped by Python `str.strip()` (the unicode
whitespace Python also strips never occurs in this pipeline). -/
def isPySpace (c : Char) : Bool :=
  c == ' ' || c == '\t' || c == '\n' || c == '\r'

/-- Python `s.strip()`: drop leading and trailing whitespace. -/
def pyStrip (s : String) : String :=
  String.mk (((s.toList.dropWhile isPySpace).reverse.dropWhile isPySpace).reverse)

/-- Python substring test `needle in hay`. -/
def strContains (hay needle : String) : Bool :=
  (List.range (hay.toList.length + 1)).any fun i =>
    needle.toList.isPrefixOf (hay.toList.drop i)

/-! ## Association-list dictionaries (Python `dict`) -/

/-- Python `d.get(key, dflt)`. -/
def dictGet {β : Type} (d : List (String × β)) (key : String) (dflt : β) : β :=
  match d.find? (fun p => p.1 == key) with
  | some p => p.2
  | none => dflt

/-- Python `d[key] = val`: overwrite in place if present, else append. -/
def dictInsert {β : Type} (d : List (String × β)) (key : String) (val : β) :
    List (String × β) :=
  if d.any (fun p => p.1 == key) then
    d.map (fun p => if p.1 == key then (key, val) else p)
  else d ++ [(key, val)]

/-! ## Configuration (src/utils/config.py) -/

/-- The configuration surface consumed by the pipeline, with the
defaults from `src/utils/config.py`. -/
structure Config where
  MAX_IMAGE_SIZE_MB : Nat
  MIN_INGREDIENT_CONFIDENCE : Rat
  COMPRESS_IMG : Bool
  COMPRESS_IMG_THRESHOLD_KB : Nat

/-- Defaults: 5 MB, confidence 0.7, compression on, threshold 300 KB. -/
def defaultConfig : Config :=
  { MAX_IMAGE_SIZE_MB := 5
    MIN_INGREDIENT_CONFIDENCE := mkRat 7 10
    COMPRESS_IMG := true
    COMPRESS_IMG_THRESHOLD_KB := 300 }

/-! ## Transient-error classification (extract_ingredients_with_retries) -/

/-- The transient-error indicators of `extract_ingredients_with_retries`. -/
def transientKeywords : List String :=
  ["timeout", "connection", "429", "500", "503", "502", "retryable"]

/-- Python `any(keyword in str(e).lower() for keyword in [...])`. -/
def is_transient_error (msg : String) : Bool :=
  transientKeywords.any fun kw => strContains (lowerStr msg) kw

/-! ## The retry controller (extract_ingredients_with_retries)

The single-attempt extractor is modelled as an oracle mapping the call
number to an outcome: a (truthy) result, a result-less return
(Python `None`), or a raised exception carrying its message text. -/

/-- Outcome of one call of the single-attempt extractor. -/
inductive AttemptOutcome (α : Type) where
  | success (r : α)
  | noResult
  | raises (msg : String)

/-- Observable trace of one retry-controller invocation: the returned
value, how many times the extractor was invoked, and the list of backoff
sleeps (in seconds, in order). -/
structure RetryTrace (α : Type) where
  result : Option α
  calls : Nat
  sleeps : List Nat

/-- The `while retry_count < max_retries` loop of
`extract_ingredients_with_retries`.  `fuel` is the loop bound
`max_retries - retry_count`, carried structurally so the definition
computes; `retry_count`, `delay_seconds` and the sleep log mirror the
Python state. -/
def retryLoop {α : Type} (b : Nat → AttemptOutcome α) (max_retries : Nat) :
    Nat → Nat → Nat → Nat → List Nat → RetryTrace α
  | 0, _, _, call_count, sleeps => ⟨none, call_count, sleeps⟩
  | fuel + 1, retry_count, delay_seconds, call_count, sleeps =>
    match b call_count with
    | .success r => ⟨some r, call_count + 1, sleeps⟩
    | .noResult =>
        if retry_count + 1 < max_retries then
          retryLoop b max_retries fuel (retry_count + 1) (delay_seconds * 2)
            (call_count + 1) (sleeps ++ [delay_seconds])
        else
          retryLoop b max_retries fuel (retry_count + 1) delay_seconds
            (call_count + 1) sleeps
    | .raises msg =>
        if is_transient_error msg = true ∧ retry_count < max_retries - 1 then
          retryLoop b max_retries fuel (retry_count + 1) (delay_seconds * 2)
            (call_count + 1) (sleeps ++ [delay_seconds])
        else
          ⟨none, call_count + 1, sleeps⟩

/-- The call `extract_ingredients_with_retries(image_bytes, max_retries)` with the
single-attempt extractor abstracted as the oracle `b`.  Initial state:
`retry_count = 0`, `delay_seconds = 1`, no calls, no sleeps. -/
def extract_ingredients_with_retries {α : Type} (b : Nat → AttemptOutcome α)
    (max_retries : Nat) : RetryTrace α :=
  retryLoop b max_retries max_retries 0 1 0 []

/-! ## Format and size validation (validate_image_format / validate_image_size)

Images are byte lists; the `filetype` library classifies by magic bytes. -/

/-- JPEG magic bytes FF D8 FF (the `filetype` jpg matcher). -/
def jpegMagic : List Nat := [255, 216, 255]

/-- PNG signature 89 50 4E 47 0D 0A 1A 0A (the `filetype` png matcher). -/
def pngMagic : List Nat := [137, 80, 78, 71, 13, 10, 26, 10]

/-- Function `validate_image_format`: content sniffing, JPEG or PNG only. -/
def validate_image_format (image_bytes : List Nat) : Bool :=
  image_bytes.take 3 == jpegMagic || image_bytes.take 8 == pngMagic

/-- Function `validate_image_size`: `len(image_bytes) / (1024*1024) > MAX_IMAGE_SIZE_MB`
fails, anything else passes. -/
def validate_image_size (cfg : Config) (image_bytes : List Nat) : Bool :=
  let size_mb : Rat := mkRat image_bytes.length (1024 * 1024)
  if size_mb > (cfg.MAX_IMAGE_SIZE_MB : Rat) then false else true

/-! ## Confidence filter (filter_ingredients_by_confidence) -/

/-- Keep the ingredients whose score (`confidence_scores.get(i, 0.0)`) is
at least `MIN_INGREDIENT_CONFIDENCE`, in input order. -/
def filter_ingredients_by_confidence (cfg : Config) (ingredients : List String)
    (confidence_scores : List (String × Rat)) : List String :=
  ingredients.filter fun ingredient =>
    decide (cfg.MIN_INGREDIENT_CONFIDENCE ≤ dictGet confidence_scores ingredient 0)

/-! ## JSON values (the result of json.loads) -/

/-- A parsed JSON value. -/
inductive Json where
  | null
  | bool (b : Bool)
  | num (q : Rat)
  | str (s : String)
  | arr (items : List Json)
  | obj (fields : List (String × Json))

/-- Python truthiness of a JSON value. -/
def jtruthy : Json → Bool
  | .null => false
  | .bool b => b
  | .num q => q != 0
  | .str s => s != ""
  | .arr items => !items.isEmpty
  | .obj fields => !fields.isEmpty

/-- Truthiness of an optional parse result (`None` is falsy). -/
def usableParse : Option Json → Bool
  | some v => jtruthy v
  | none => false

/-! ## The pydantic model IngredientDetectionOutput (src/models/models.py) -/

/-- A successfully validated `IngredientDetectionOutput` instance. -/
structure IngredientDetectionOutput where
  ingredients : List String
  confidence_scores : List (String × Rat)
  image_description : Option String

deriving instance DecidableEq, Repr for IngredientDetectionOutput

/-- Python `float(score)` on a JSON value: numbers convert, booleans convert to
1.0/0.0; null, strings, lists and dicts make the validator raise.
(Numeric strings, which Python float() would also accept, are outside the
modelled fragment; the pipeline never produces them.) -/
def jsonToFloat : Json → Option Rat
  | .num q => some q
  | .bool b => some (if b then 1 else 0)
  | _ => none

/-- The `for ingredient, score in v.items()` loop of
`validate_confidence_scores`, building the `validated` dict; the first
non-convertible or out-of-range value raises (returns `none`). -/
def scoresLoop (validated : List (String × Rat)) :
    List (String × Json) → Option (List (String × Rat))
  | [] => some validated
  | kv :: rest =>
    match jsonToFloat kv.2 with
    | none => none
    | some f =>
        if 0 < f ∧ f ≤ 1 then scoresLoop (dictInsert validated (lowerStr (pyStrip kv.1)) f) rest
        else none

/-- The `validate_confidence_scores` before-validator: the raw value must
be a dict; every value must convert with `float` into `(0.0, 1.0]`; the
validated dict re-keys each entry at `key.strip().lower()`. -/
def validate_confidence_scores (v : Json) : Option (List (String × Rat)) :=
  match v with
  | .obj fields => scoresLoop [] fields
  | _ => none

/-- Item-wise coercion of a JSON array to a string list: any non-string
item fails. -/
def strItems : List Json → Option (List String)
  | [] => some []
  | .str s :: rest => (strItems rest).map (fun l => s :: l)
  | _ :: _ => none

/-- pydantic coercion of the raw `ingredients` value to `List[str]`
(a JSON array whose items are all strings; anything else fails). -/
def asStrList : Json → Option (List String)
  | .arr items => strItems items
  | _ => none

/-- pydantic coercion of the raw `image_description` value to
`Optional[str]`. -/
def asOptStr : Json → Option (Option String)
  | .null => some none
  | .str s => some (some s)
  | _ => none

/-- Construction `IngredientDetectionOutput(ingredients=..., confidence_scores=...,
image_description=...)` on raw (JSON) field values: `str_strip_whitespace`
strips every string, `ingredients` must hold 1..50 strings,
`image_description` at most 500 characters, scores pass
`validate_confidence_scores`, and the after-validator
`validate_scores_match_ingredients` requires every lower-cased ingredient
to be a lower-cased score key.  `none` models a raised ValidationError. -/
def mkIngredientDetectionOutput (ingredients confidence_scores image_description : Json) :
    Option IngredientDetectionOutput :=
  match asStrList ingredients with
  | none => none
  | some ingList =>
    let ings := ingList.map pyStrip
    if ings.length < 1 ∨ 50 < ings.length then none
    else match validate_confidence_scores confidence_scores with
    | none => none
    | some scores =>
      match asOptStr image_description with
      | none => none
      | some descRaw =>
        let desc := descRaw.map pyStrip
        if (match desc with | some d => decide (500 < d.length) | none => false) then none
        else if ings.all (fun i => scores.any (fun p => lowerStr p.1 == lowerStr i)) then
          some ⟨ings, scores, desc⟩
        else none

/-- Inject a Python `list[str]` literal as a raw JSON field value. -/
def jStrList (l : List String) : Json := .arr (l.map .str)

/-- Inject a Python `dict[str, float]` literal as a raw JSON field value. -/
def jScores (d : List (String × Rat)) : Json := .obj (d.map fun p => (p.1, .num p.2))

/-- Inject a Python `Optional[str]` as a raw JSON field value. -/
def jOptStr : Option String → Json
  | none => .null
  | some s => .str s

/-- Construction of `IngredientDetectionOutput` from already-typed Python
values, as performed inside `detect_ingredients_tool`. -/
def mkIngredientDetectionOutputT (ingredients : List String)
    (confidence_scores : List (String × Rat)) (image_description : Option String) :
    Option IngredientDetectionOutput :=
  mkIngredientDetectionOutput (jStrList ingredients) (jScores confidence_scores)
    (jOptStr image_description)

/-! ## Lenient response parsing (parse_gemini_response) -/

/-- Literal left brace (written via its code point to keep string
literals brace-free). -/
def lbrace : Char := Char.ofNat 123

/-- Literal right brace. -/
def rbrace : Char := Char.ofNat 125

/-- The fallback extraction step of `parse_gemini_response`:
`re.search(r"\x7b.*\x7d", response_text, re.DOTALL)`.  Greedy `.*` with
DOTALL means the match, when it exists, runs from the first left brace to
the last right brace of the whole text; it exists exactly when some right
brace occurs after the first left brace. -/
def extract_json_span (s : String) : Option String :=
  let cs := s.toList
  match cs.findIdx? (fun c => c == lbrace),
        (cs.reverse.findIdx? (fun c => c == rbrace)).map (fun k => cs.length - 1 - k) with
  | some i, some j =>
      if i < j then some (String.mk ((cs.drop i).take (j - i + 1))) else none
  | _, _ => none

/-- The `_validate_output` step of `parse_gemini_response`: read the three
fields off the parsed dict (with defaults `[]`, `\x7b\x7d`, `None`) and
construct the pydantic model; a non-dict parse raises AttributeError on
`.get`, which `safe_execute_sync` turns into `None`. -/
def validate_output (parsed : Json) : Option IngredientDetectionOutput :=
  match parsed with
  | .obj fields =>
      mkIngredientDetectionOutput
        (dictGet fields ("ingredients") (.arr []))
        (dictGet fields ("confidence_scores") (.obj []))
        (dictGet fields ("image_description") .null)
  | _ => none

/-- Function `parse_gemini_response` (src/mcp_tools/ingredients.py): try
`json.loads` on the whole text; if that raised or produced a falsy value,
extract the first-to-last brace span and try `json.loads` on it; if the
surviving value is falsy or absent return `None`, else validate it into
the model.  `jl` is the `json.loads` oracle (`none` models a raised
decode error). -/
def parse_gemini_response (jl : String → Option Json) (response_text : String) :
    Option IngredientDetectionOutput :=
  let parsed1 : Option Json := jl response_text
  let parsed2 : Option Json :=
    if usableParse parsed1 then parsed1
    else
      match extract_json_span response_text with
      | some sub => jl sub
      | none => none
  match parsed2 with
  | some v => if jtruthy v then validate_output v else none
  | none => none

/-! ## Compression (compress_image) -/

/-- Function `compress_image`: images under `COMPRESS_IMG_THRESHOLD_KB` are
returned unchanged; otherwise the PIL re-encode runs, modelled by the
oracle `pil` (whose failure case already returns the original bytes, as
`safe_execute_sync(..., default_return=image_bytes)` does). -/
def compress_image (cfg : Config) (pil : List Nat → List Nat)
    (image_bytes : List Nat) : List Nat :=
  let size_kb : Rat := mkRat image_bytes.length 1024
  if size_kb < (cfg.COMPRESS_IMG_THRESHOLD_KB : Rat) then image_bytes
  else pil image_bytes

/-- View a per-attempt extractor that never raises (the real
`extract_ingredients_from_image` catches every exception) as a retry
behaviour. -/
def toAttempt {α : Type} : Option α → AttemptOutcome α
  | some r => .success r
  | none => .noResult

namespace Mcp

/-! ## The packaged pipeline (src/mcp_tools/ingredients.py)

The network-facing stages are oracles: `fetch` models
`_get_image_bytes_from_source`, `attempts bytes n` models the n-th
single-attempt `extract_ingredients_from_image(bytes)` call (which never
raises), `pil` models the PIL re-encode. -/

/-- Function `prepare_and_extract_ingredients`: validate format, validate size,
optionally compress, extract (with or without the retry controller),
filter by confidence. -/
def prepare_and_extract_ingredients (cfg : Config) (pil : List Nat → List Nat)
    (attempts : List Nat → Nat → Option IngredientDetectionOutput)
    (with_retries : Bool) (image_bytes : List Nat) :
    Option (List String × IngredientDetectionOutput) :=
  if validate_image_format image_bytes = false then none
  else if validate_image_size cfg image_bytes = false then none
  else
    let ib := if cfg.COMPRESS_IMG then compress_image cfg pil image_bytes else image_bytes
    let result :=
      if with_retries then
        (extract_ingredients_with_retries (fun n => toAttempt (attempts ib n)) 3).result
      else attempts ib 0
    match result with
    | none => none
    | some r =>
        some (filter_ingredients_by_confidence cfg r.ingredients r.confidence_scores, r)

/-- Function `_process_single_image`: resolve the source to bytes, run the unified
pipeline without retries, drop empty results. -/
def _process_single_image {ι : Type} (cfg : Config) (pil : List Nat → List Nat)
    (attempts : List Nat → Nat → Option IngredientDetectionOutput)
    (fetch : ι → Option (List Nat)) (image_source : ι) : Option (List String) :=
  match fetch image_source with
  | none => none
  | some image_bytes =>
    if image_bytes.isEmpty then none
    else
      match prepare_and_extract_ingredients cfg pil attempts false image_bytes with
      | none => none
      | some (ingredients, _) => if ingredients.isEmpty then none else some ingredients

/-- The ChatMessage payload the pre-hook mutates: outgoing text plus the
image-reference list. -/
structure ChatMessage (ι : Type) where
  message : String
  images : List ι

/-- Python `list(dict.fromkeys(...))`: deduplicate keeping first occurrences. -/
def dedupFirstAux (seen : List String) : List String → List String
  | [] => []
  | x :: xs =>
      if x ∈ seen then dedupFirstAux seen xs else x :: dedupFirstAux (x :: seen) xs

/-- Deduplicate preserving first-seen order. -/
def dedupFirst (l : List String) : List String := dedupFirstAux [] l

/-- Python `asyncio.gather(..., return_exceptions=False)`: the first raising
task aborts the join and re-raises. -/
def gatherResults {β : Type} : List (Except String β) → Except String (List β)
  | [] => .ok []
  | x :: xs =>
    match x with
    | .error e => .error e
    | .ok v => (gatherResults xs).map (fun l => v :: l)

/-- The `for result in results` loop of the pre-hook: extend
`all_ingredients` with every truthy per-image result. -/
def flattenLoop (all_ingredients : List String) :
    List (Option (List String)) → List String
  | [] => all_ingredients
  | r :: rest =>
    match r with
    | some l => if l.isEmpty then flattenLoop all_ingredients rest
                else flattenLoop (all_ingredients ++ l) rest
    | none => flattenLoop all_ingredients rest

/-- The flatten step of the pre-hook, starting from the empty list. -/
def flattenResults (results : List (Option (List String))) : List String :=
  flattenLoop [] results

/-- Function `extract_ingredients_pre_hook`: with no images it returns at once;
otherwise it gathers the per-image tasks (each task is
`_process_single_image`, abstracted here as a possibly-raising oracle so
the top-level except clause is part of the model), appends the
annotation to the text when anything was found, and clears the image
list; an escaped exception is caught, the text left alone, and the image
list still cleared. -/
def extract_ingredients_pre_hook {ι : Type}
    (tasks : ι → Except String (Option (List String))) (cm : ChatMessage ι) :
    ChatMessage ι :=
  if cm.images.isEmpty then cm
  else
    match gatherResults (cm.images.map tasks) with
    | .error _ => { cm with images := [] }
    | .ok results =>
      let all_ingredients := flattenResults results
      let message :=
        if all_ingredients.isEmpty then cm.message
        else
          cm.message ++ "\n\n[Detected Ingredients] " ++
            String.intercalate (", ") (dedupFirst all_ingredients)
      { message := message, images := [] }

/-- The dict comprehension
`\x7bing: result.confidence_scores[ing] for ing in ingredients\x7d`:
left-to-right, indexing raises KeyError (whose str() is the quoted key)
on the first ingredient without a score entry. -/
def lookupScores (d : List (String × Rat)) (keys : List String) :
    Except String (List (String × Rat)) :=
  keys.foldl
    (fun acc i =>
      acc.bind fun out =>
        match d.find? (fun p => p.1 == i) with
        | none => .error ("\x27" ++ i ++ "\x27")
        | some p => .ok (dictInsert out i p.2))
    (.ok [])

/-- Function `detect_ingredients_tool` (tool mode): resolve bytes, validate format
then size, optionally compress, extract with the retry controller
(default budget 3), filter by confidence, and re-validate the filtered
result; every failure raises a specific ValueError, modelled as
`Except.error` with the message.  A failed final construction re-raises
the pydantic ValidationError (a ValueError subclass) whose long
rendered message is abbreviated here; that branch is unreachable for a
positive threshold. -/
def detect_ingredients_tool (cfg : Config) (getBytes : Option (List Nat))
    (pil : List Nat → List Nat)
    (attempts : List Nat → Nat → Option IngredientDetectionOutput) :
    Except String IngredientDetectionOutput :=
  match getBytes with
  | none => .error ("Could not retrieve image bytes from provided data")
  | some image_bytes =>
    if image_bytes.isEmpty then
      .error ("Could not retrieve image bytes from provided data")
    else if validate_image_format image_bytes = false then
      .error ("Invalid image format. Only JPEG and PNG are supported.")
    else if validate_image_size cfg image_bytes = false then
      .error ("Image too large. Maximum size is " ++ toString cfg.MAX_IMAGE_SIZE_MB ++ "MB")
    else
      let ib := if cfg.COMPRESS_IMG then compress_image cfg pil image_bytes else image_bytes
      match (extract_ingredients_with_retries (fun n => toAttempt (attempts ib n)) 3).result with
      | none => .error ("Failed to extract ingredients from image. Please try another image.")
      | some result =>
        let ingredients :=
          filter_ingredients_by_confidence cfg result.ingredients result.confidence_scores
        if ingredients.isEmpty then
          .error ("No ingredients detected with sufficient confidence. Please try another image.")
        else
          match lookupScores result.confidence_scores ingredients with
          | .error e => .error ("Ingredient detection failed: " ++ e)
          | .ok pairs =>
            match mkIngredientDetectionOutputT ingredients pairs result.image_description with
            | some out => .ok out
            | none => .error ("pydantic ValidationError")

end Mcp

namespace Legacy

/-! ## The flat legacy module (ingredients.py at the repository root)

This is the variant the unit-test suite drives.  Its
`extract_ingredients_from_image` returns the parsed dict after checking
only that `ingredients` is a list and `confidence_scores` a dict; the
result is modelled with typed fields. -/

/-- A dict returned by the legacy `extract_ingredients_from_image`. -/
structure InferResult where
  ingredients : List String
  confidence_scores : List (String × Rat)

deriving instance DecidableEq, Repr for InferResult

/-- The dict returned by the legacy `detect_ingredients_tool`. -/
structure ToolResult where
  ingredients : List String
  confidence_scores : List (String × Rat)
  image_description : String

deriving instance DecidableEq, Repr for ToolResult

/-- Python `format(q, ".0%")`: multiply by 100 and round half to even.
Computed exactly on the numerator and denominator of the (non-negative)
score: `q * 100 = n100 / d`, floor `n100 / d` with remainder `r`, and the
half-to-even comparison of the fractional part `r / d` against one half
is `2 * r` against `d`. -/
def formatPct (q : Rat) : String :=
  let n100 : Int := q.num * 100
  let d : Int := (q.den : Int)
  let fl : Int := n100 / d
  let r : Int := n100 % d
  let n : Int :=
    if 2 * r > d then fl + 1
    else if 2 * r < d then fl
    else if fl % 2 = 0 then fl else fl + 1
  toString n ++ "%"

/-- The description built by the legacy tool: the first five surviving
ingredients with percent confidence, plus a remainder count. -/
def build_image_description (ingredients : List String)
    (confidence_scores : List (String × Rat)) : String :=
  let scores_text :=
    String.intercalate (", ")
      ((ingredients.take 5).map fun ing =>
        ing ++ " (" ++ formatPct (dictGet confidence_scores ing 0) ++ ")")
  let base := "Detected ingredients: " ++ scores_text
  if 5 < ingredients.length then
    base ++ " and " ++ toString (ingredients.length - 5) ++ " more"
  else base

/-- The dict comprehension
`\x7bing: confidence_scores.get(ing, 0) for ing in ingredients\x7d`
(the legacy tool uses `.get` with default 0, so it cannot raise). -/
def scoresFromKeys (d : List (String × Rat)) (keys : List String) :
    List (String × Rat) :=
  keys.foldl (fun out i => dictInsert out i (dictGet d i 0)) []

/-- Legacy `detect_ingredients_tool`: resolve bytes (URL fetch or base64
decode, abstracted as `getBytes`), validate format then size, extract
with the retry controller (budget 3, single-attempt oracle `attempts`),
filter by confidence, and return the dict with the built description;
failures raise the same specific ValueErrors as the packaged variant. -/
def detect_ingredients_tool (cfg : Config) (getBytes : Option (List Nat))
    (attempts : Nat → Option InferResult) : Except String ToolResult :=
  match getBytes with
  | none => .error ("Could not retrieve image bytes from provided data")
  | some image_bytes =>
    if image_bytes.isEmpty then
      .error ("Could not retrieve image bytes from provided data")
    else if validate_image_format image_bytes = false then
      .error ("Invalid image format. Only JPEG and PNG are supported.")
    else if validate_image_size cfg image_bytes = false then
      .error ("Image too large. Maximum size is " ++ toString cfg.MAX_IMAGE_SIZE_MB ++ "MB")
    else
      match (extract_ingredients_with_retries (fun n => toAttempt (attempts n)) 3).result with
      | none => .error ("Failed to extract ingredients from image. Please try another image.")
      | some result =>
        let ingredients :=
          filter_ingredients_by_confidence cfg result.ingredients result.confidence_scores
        if ingredients.isEmpty then
          .error ("No ingredients detected with sufficient confidence. Please try another image.")
        else
          .ok ⟨ingredients, scoresFromKeys result.confidence_scores ingredients,
               build_image_description ingredients result.confidence_scores⟩

end Legacy

deriving instance DecidableEq, Repr for RetryTrace

/-! ## Concrete fixtures used by the witnesses -/

/-- A mock extractor: one transient failure, then success. -/
def mockTransientThenSuccess : Nat → AttemptOutcome Bool :=
  fun k => if k = 0 then .raises ("Connection timeout") else .success true

/-- A mock extractor raising a permanent (non-transient) error. -/
def mockPermanentFailure : Nat → AttemptOutcome Bool :=
  fun _ => .raises ("invalid api key")

/-- A mock extractor that always returns None without raising. -/
def mockAlwaysNone : Nat → AttemptOutcome Bool := fun _ => .noResult

/-- Bytes with neither a JPEG nor a PNG signature. -/
def corruptBytes : List Nat := [0, 1, 2, 3]

/-- A minimal valid PNG payload for the model: the PNG signature. -/
def pngBytes : List Nat := pngMagic

/-- A configuration whose size budget rejects every non-empty image. -/
def zeroSizeConfig : Config :=
  { MAX_IMAGE_SIZE_MB := 0
    MIN_INGREDIENT_CONFIDENCE := mkRat 7 10
    COMPRESS_IMG := false
    COMPRESS_IMG_THRESHOLD_KB := 300 }

/-- An extraction result whose only ingredient is below the 0.7 default
threshold. -/
def lowConfResult : IngredientDetectionOutput := ⟨["basil"], [("basil", mkRat 3 5)], none⟩

/-- The inference result of the end-to-end scenario of the spec. -/
def inferTomatoBasil : Legacy.InferResult :=
  ⟨["tomato", "basil"], [("tomato", mkRat 19 20), ("basil", mkRat 3 5)]⟩

/-- A brace-delimited span embedded in prose for the parser witness. -/
def spanFixture : String := "\x7btomato\x7d"

/-- The JSON object the parse oracle returns for `spanFixture`. -/
def goodJson : Json :=
  .obj [("ingredients", .arr [Json.str ("tomato")]),
        ("confidence_scores", .obj [("tomato", .num (mkRat 19 20))])]

/-- A `json.loads` oracle that only accepts `spanFixture`. -/
def jlFixture : String → Option Json :=
  fun s => if s = spanFixture then some goodJson else none

/-! # Theorems -/

/-! ## Retry-controller lemmas -/

/-- The loop makes at most `fuel` further extractor calls. -/
theorem retryLoop_calls_le {α : Type} (b : Nat → AttemptOutcome α) (max : Nat) :
    ∀ (fuel j d c : Nat) (s : List Nat), (retryLoop b max fuel j d c s).calls ≤ c + fuel := by
  intro fuel
  induction fuel with
  | zero => intro j d c s; simp [retryLoop]
  | succ fuel ih =>
    intro j d c s
    cases hb : b c with
    | success r => simp [retryLoop, hb]
    | noResult =>
      by_cases hj : j + 1 < max
      · simp only [retryLoop, hb, if_pos hj]
        exact le_trans (ih _ _ _ _) (by omega)
      · simp only [retryLoop, hb, if_neg hj]
        exact le_trans (ih _ _ _ _) (by omega)
    | raises msg =>
      by_cases hc : is_transient_error msg = true ∧ j < max - 1
      · simp only [retryLoop, hb, if_pos hc]
        exact le_trans (ih _ _ _ _) (by omega)
      · simp only [retryLoop, hb, if_neg hc]
        omega

/-- If no extractor call ever produces a (truthy) result, the loop
returns `None`. -/
theorem retryLoop_result_none {α : Type} (b : Nat → AttemptOutcome α) (max : Nat)
    (hb : ∀ k r, b k ≠ .success r) :
    ∀ (fuel j d c : Nat) (s : List Nat), (retryLoop b max fuel j d c s).result = none := by
  intro fuel
  induction fuel with
  | zero => intro j d c s; simp [retryLoop]
  | succ fuel ih =>
    intro j d c s
    cases hcall : b c with
    | success r => exact absurd hcall (hb c r)
    | noResult =>
      by_cases hj : j + 1 < max
      · simp only [retryLoop, hcall, if_pos hj]; exact ih _ _ _ _
      · simp only [retryLoop, hcall, if_neg hj]; exact ih _ _ _ _
    | raises msg =>
      by_cases hc : is_transient_error msg = true ∧ j < max - 1
      · simp only [retryLoop, hcall, if_pos hc]; exact ih _ _ _ _
      · simp only [retryLoop, hcall, if_neg hc]

/-- Behaviour of the loop when the first `N` calls raise transient errors
and call `N` succeeds: from loop state `retry_count = k`,
`delay_seconds = 2 ^ k`, with the first `k` sleeps already logged, it
reaches the success after `N + 1` total calls with sleep log
`1, 2, ..., 2 ^ (N - 1)`. -/
theorem retryLoop_transient_spec {α : Type} (b : Nat → AttemptOutcome α)
    (N max : Nat) (r : α)
    (hmax : N + 1 ≤ max)
    (htrans : ∀ k, k < N → ∃ msg, b k = .raises msg ∧ is_transient_error msg = true)
    (hsucc : b N = .success r) :
    ∀ (fuel k : Nat), k + fuel = max → k ≤ N →
      retryLoop b max fuel k (2 ^ k) k ((List.range k).map (2 ^ ·)) =
        ⟨some r, N + 1, (List.range N).map (2 ^ ·)⟩ := by
  intro fuel
  induction fuel with
  | zero => intro k hk hkN; omega
  | succ fuel ih =>
    intro k hk hkN
    rcases Nat.eq_or_lt_of_le hkN with hkN' | hkN'
    · subst hkN'
      simp [retryLoop, hsucc]
    · obtain ⟨msg, hmsg, htr⟩ := htrans k hkN'
      have hcond : is_transient_error msg = true ∧ k < max - 1 := ⟨htr, by omega⟩
      have h1 : 2 ^ k * 2 = 2 ^ (k + 1) := (pow_succ 2 k).symm
      have h2 : (List.range k).map (2 ^ ·) ++ [2 ^ k] = (List.range (k + 1)).map (2 ^ ·) := by
        rw [List.range_succ, List.map_append]; rfl
      simp only [retryLoop, hmsg, if_pos hcond, h1, h2]
      exact ih (k + 1) (by omega) (by omega)

/-- C1: if the single-attempt extractor raises a transient-classified
error on its first N calls and returns a valid result on call N+1, then
for any max_attempts at least N+1 the retry controller returns that
result, invokes the extractor exactly N+1 times, and sleeps between
consecutive calls with delays 1, 2, 4, ... (the k-th delay being
2^(k-1) seconds). -/
theorem retry_transient_then_success {α : Type} (b : Nat → AttemptOutcome α)
    (N max_attempts : Nat) (r : α)
    (hmax : N + 1 ≤ max_attempts)
    (htrans : ∀ k, k < N → ∃ msg, b k = .raises msg ∧ is_transient_error msg = true)
    (hsucc : b N = .success r) :
    extract_ingredients_with_retries b max_attempts =
      ⟨some r, N + 1, (List.range N).map (2 ^ ·)⟩ := by
  have h := retryLoop_transient_spec b N max_attempts r hmax htrans hsucc
    max_attempts 0 (by omega) (by omega)
  simpa [extract_ingredients_with_retries] using h

/-- Witness for C1: one transient raise ("Connection timeout"), then
success, budget 3: the result is returned after exactly 2 calls with a
single 1-second sleep. -/
theorem retry_transient_then_success_witness :
    extract_ingredients_with_retries mockTransientThenSuccess 3 =
      ⟨some true, 2, [1]⟩ := by
  have h := retry_transient_then_success mockTransientThenSuccess 1 3 true (by omega)
    (fun k hk => ⟨"Connection timeout", by
        have hz : k = 0 := by omega
        subst hz; rfl, by decide⟩)
    rfl
  exact h.trans (by decide)

/-- C2: an error whose text contains none of the transient indicators is
classified permanent: the extractor is invoked exactly once, no backoff
sleep happens, and the controller returns None without raising, even
with attempt budget remaining. -/
theorem retry_permanent_single_call {α : Type} (b : Nat → AttemptOutcome α)
    (max_attempts : Nat) (msg : String)
    (hmax : 1 ≤ max_attempts)
    (hraise : b 0 = .raises msg)
    (hperm : ∀ kw ∈ transientKeywords, strContains (lowerStr msg) kw = false) :
    extract_ingredients_with_retries b max_attempts = ⟨none, 1, []⟩ := by
  have htr : ¬(is_transient_error msg = true ∧ 0 < max_attempts - 1) := by
    rintro ⟨h1, -⟩
    rw [is_transient_error, List.any_eq_true] at h1
    obtain ⟨kw, hkw, hc⟩ := h1
    rw [hperm kw hkw] at hc
    exact Bool.false_ne_true hc
  obtain ⟨m, rfl⟩ : ∃ m, max_attempts = m + 1 := ⟨max_attempts - 1, by omega⟩
  show retryLoop b (m + 1) (m + 1) 0 1 0 [] = ⟨none, 1, []⟩
  simp only [retryLoop, hraise, if_neg htr]

/-- Witness for C2: a permanent error ("invalid api key") with budget 3
yields None after exactly one call and no sleep. -/
theorem retry_permanent_single_call_witness :
    extract_ingredients_with_retries mockPermanentFailure 3 = ⟨none, 1, []⟩ :=
  retry_permanent_single_call mockPermanentFailure 3 ("invalid api key")
    (by omega) rfl (by decide)

/-- C3: for every extractor behaviour the retry controller invokes the
extractor at most max_attempts times (and terminates, being a total
function), and when no attempt yields a result it returns None; no
exception propagates (the model returns an explicit Option). -/
theorem retry_bounded_and_total {α : Type} (b : Nat → AttemptOutcome α)
    (max_attempts : Nat) :
    (extract_ingredients_with_retries b max_attempts).calls ≤ max_attempts ∧
    ((∀ k r, b k ≠ .success r) →
      (extract_ingredients_with_retries b max_attempts).result = none) := by
  constructor
  · simpa using retryLoop_calls_le b max_attempts max_attempts 0 1 0 []
  · intro hb
    exact retryLoop_result_none b max_attempts hb max_attempts 0 1 0 []

/-- Witness for C3: an extractor that always returns None with budget 3
is called at most 3 times and the controller returns None. -/
theorem retry_bounded_and_total_witness :
    (extract_ingredients_with_retries mockAlwaysNone 3).calls ≤ 3 ∧
    (extract_ingredients_with_retries mockAlwaysNone 3).result = none :=
  ⟨(retry_bounded_and_total mockAlwaysNone 3).1,
   (retry_bounded_and_total mockAlwaysNone 3).2 (fun _ _ h => nomatch h)⟩

/-! ## Confidence-filter theorems -/

/-- C4: the filter returns a subsequence of its input (hence preserves
order) containing exactly the names whose looked-up confidence (missing
entries default to 0.0) meets the threshold; names absent from the score
dict are dropped whenever the threshold is positive; and the filter is
idempotent. -/
theorem filter_ingredients_spec (cfg : Config) (L : List String)
    (C : List (String × Rat)) :
    (filter_ingredients_by_confidence cfg L C).Sublist L ∧
    (∀ name, name ∈ filter_ingredients_by_confidence cfg L C ↔
        name ∈ L ∧ cfg.MIN_INGREDIENT_CONFIDENCE ≤ dictGet C name 0) ∧
    (∀ name, (∀ p ∈ C, p.1 ≠ name) → 0 < cfg.MIN_INGREDIENT_CONFIDENCE →
        name ∉ filter_ingredients_by_confidence cfg L C) ∧
    filter_ingredients_by_confidence cfg (filter_ingredients_by_confidence cfg L C) C =
      filter_ingredients_by_confidence cfg L C := by
  refine ⟨List.filter_sublist _, ?_, ?_, ?_⟩
  · intro name
    simp [filter_ingredients_by_confidence, List.mem_filter]
  · intro name hnone ht hmem
    have hge := (List.mem_filter.mp hmem).2
    have hget : dictGet C name 0 = 0 := by
      unfold dictGet
      cases hf : C.find? (fun p => p.1 == name) with
      | none => rfl
      | some p =>
        have hp := List.find?_some hf
        have hpmem := List.mem_of_find?_eq_some hf
        exact absurd (by simpa using hp) (hnone p hpmem)
    rw [hget, decide_eq_true_eq] at hge
    exact absurd (lt_of_lt_of_le ht hge) (lt_irrefl 0)
  · apply List.filter_eq_self.mpr
    intro a ha
    exact (List.mem_filter.mp ha).2

/-- Witness for C4: on a concrete list the filter keeps exactly the
above-threshold name and applying it twice equals applying it once. -/
theorem filter_ingredients_spec_witness :
    filter_ingredients_by_confidence defaultConfig
        (filter_ingredients_by_confidence defaultConfig ["tomato", "basil"]
          [("tomato", mkRat 19 20), ("basil", mkRat 3 5)])
        [("tomato", mkRat 19 20), ("basil", mkRat 3 5)] =
      filter_ingredients_by_confidence defaultConfig ["tomato", "basil"]
        [("tomato", mkRat 19 20), ("basil", mkRat 3 5)] ∧
    filter_ingredients_by_confidence defaultConfig ["tomato", "basil"]
        [("tomato", mkRat 19 20), ("basil", mkRat 3 5)] = ["tomato"] :=
  ⟨(filter_ingredients_spec defaultConfig (["tomato", "basil"])
      ([("tomato", mkRat 19 20), ("basil", mkRat 3 5)])).2.2.2,
   by decide⟩

/-! ## Pre-hook lemmas -/

/-- Gathering tasks that all returned `None` yields the all-`None` list. -/
theorem gatherResults_all_none {ι : Type}
    (tasks : ι → Except String (Option (List String))) (l : List ι)
    (h : ∀ x ∈ l, tasks x = .ok none) :
    Mcp.gatherResults (l.map tasks) = .ok (l.map fun _ => none) := by
  induction l with
  | nil => rfl
  | cons x xs ih =>
    simp only [List.map_cons, Mcp.gatherResults, h x (by simp)]
    rw [ih (fun y hy => h y (by simp [hy]))]
    rfl

/-- If some task raised, the gather raises. -/
theorem gatherResults_error {ι : Type}
    (tasks : ι → Except String (Option (List String))) (l : List ι)
    (h : ∃ x ∈ l, ∃ e, tasks x = .error e) :
    ∃ e, Mcp.gatherResults (l.map tasks) = .error e := by
  induction l with
  | nil => simp at h
  | cons x xs ih =>
    obtain ⟨y, hy, e, he⟩ := h
    rcases List.mem_cons.mp hy with rfl | hy'
    · exact ⟨e, by simp only [List.map_cons, Mcp.gatherResults, he]⟩
    · cases hx : tasks x with
      | error e' => exact ⟨e', by simp only [List.map_cons, Mcp.gatherResults, hx]⟩
      | ok v =>
        obtain ⟨e'', he''⟩ := ih ⟨y, hy', e, he⟩
        refine ⟨e'', ?_⟩
        simp only [List.map_cons, Mcp.gatherResults, hx, he'']
        rfl

/-- Flattening a list of `None` results adds nothing. -/
theorem flattenLoop_all_none (acc : List String) (l : List (Option (List String)))
    (h : ∀ r ∈ l, r = none) : Mcp.flattenLoop acc l = acc := by
  induction l generalizing acc with
  | nil => rfl
  | cons r rest ih =>
    have hr : r = none := h r (by simp)
    subst hr
    simp only [Mcp.flattenLoop]
    exact ih acc (fun r' hr' => h r' (by simp [hr']))

/-- C5: the pre-processing adapter never modifies the outgoing text and
always clears the image payload on every failure input: zero images
(returned unchanged, the image list being already empty), every per-image
task contributing nothing, or an unexpected internal error escaping a
task (caught at the top); and the per-image pipeline indeed contributes
nothing for an unresolvable source, a corrupt (non-JPEG/PNG) image, an
oversized image, or a failing inference call.  The adapter is a total
function, so it returns normally on every input. -/
theorem pre_hook_silent_cleanup {ι : Type}
    (cfg : Config) (pil : List Nat → List Nat)
    (attempts : List Nat → Nat → Option IngredientDetectionOutput)
    (fetch : ι → Option (List Nat))
    (tasks : ι → Except String (Option (List String)))
    (cm : Mcp.ChatMessage ι) :
    (cm.images = [] → Mcp.extract_ingredients_pre_hook tasks cm = cm) ∧
    ((∀ img ∈ cm.images, tasks img = .ok none) →
        Mcp.extract_ingredients_pre_hook tasks cm = ⟨cm.message, []⟩) ∧
    ((∃ img ∈ cm.images, ∃ e, tasks img = .error e) →
        Mcp.extract_ingredients_pre_hook tasks cm = ⟨cm.message, []⟩) ∧
    (∀ img, fetch img = none →
        Mcp._process_single_image cfg pil attempts fetch img = none) ∧
    (∀ img b, fetch img = some b → validate_image_format b = false →
        Mcp._process_single_image cfg pil attempts fetch img = none) ∧
    (∀ img b, fetch img = some b → validate_image_size cfg b = false →
        Mcp._process_single_image cfg pil attempts fetch img = none) ∧
    (∀ img b, fetch img = some b → (∀ bb n, attempts bb n = none) →
        Mcp._process_single_image cfg pil attempts fetch img = none) := by
  refine ⟨?_, ?_, ?_, ?_, ?_, ?_, ?_⟩
  · intro h
    simp [Mcp.extract_ingredients_pre_hook, h]
  · intro h
    by_cases hempty : cm.images.isEmpty
    · obtain ⟨msg, imgs⟩ := cm
      simp only [List.isEmpty_iff] at hempty
      subst hempty
      simp [Mcp.extract_ingredients_pre_hook]
    · simp only [Mcp.extract_ingredients_pre_hook, if_neg hempty]
      rw [gatherResults_all_none tasks cm.images h]
      have hflat : Mcp.flattenResults (cm.images.map fun _ => none) = [] :=
        flattenLoop_all_none [] _ (by simp)
      simp only [hflat]
      simp
  · intro h
    obtain ⟨e, he⟩ := gatherResults_error tasks cm.images h
    have hne : ¬cm.images.isEmpty := by
      obtain ⟨x, hx, -⟩ := h
      intro hcontra
      rw [List.isEmpty_iff] at hcontra
      rw [hcontra] at hx
      simp at hx
    simp [Mcp.extract_ingredients_pre_hook, hne, he]
  · intro img h
    simp [Mcp._process_single_image, h]
  · intro img b hb hfmt
    by_cases hbe : b.isEmpty <;>
      simp [Mcp._process_single_image, Mcp.prepare_and_extract_ingredients, hb, hbe, hfmt]
  · intro img b hb hsize
    by_cases hbe : b.isEmpty
    · simp [Mcp._process_single_image, hb, hbe]
    · cases hfmt : validate_image_format b <;>
        simp [Mcp._process_single_image, Mcp.prepare_and_extract_ingredients, hb, hbe, hfmt, hsize]
  · intro img b hb hatt
    by_cases hbe : b.isEmpty
    · simp [Mcp._process_single_image, hb, hbe]
    · cases hfmt : validate_image_format b
      · simp [Mcp._process_single_image, Mcp.prepare_and_extract_ingredients, hb, hbe, hfmt]
      · cases hsize : validate_image_size cfg b
        · simp [Mcp._process_single_image, Mcp.prepare_and_extract_ingredients, hb, hbe, hfmt, hsize]
        · simp [Mcp._process_single_image, Mcp.prepare_and_extract_ingredients, hb, hbe, hfmt, hsize, hatt]

/-- Witness for C5: one corrupt image; the hook leaves the text alone and
clears the image list. -/
theorem pre_hook_silent_cleanup_witness :
    Mcp.extract_ingredients_pre_hook
        (fun i : Nat => .ok (Mcp._process_single_image defaultConfig id
          (fun _ _ => none) (fun _ => some corruptBytes) i))
        ⟨"What can I cook?", [0]⟩ =
      ⟨"What can I cook?", []⟩ := by
  have h := pre_hook_silent_cleanup defaultConfig id (fun _ _ => none)
      (fun _ : Nat => some corruptBytes)
      (fun i : Nat => .ok (Mcp._process_single_image defaultConfig id
        (fun _ _ => none) (fun _ => some corruptBytes) i))
      ⟨"What can I cook?", [0]⟩
  exact h.2.1 (fun img _ => congrArg Except.ok
    (h.2.2.2.2.1 img corruptBytes rfl (by decide)))

/-! ## On-demand adapter lemmas -/

/-- A success on the very first attempt returns at once: one call, no
sleep. -/
theorem extract_retries_first_success {α : Type} (b : Nat → AttemptOutcome α)
    (r : α) (max : Nat) (hmax : 1 ≤ max) (h : b 0 = .success r) :
    extract_ingredients_with_retries b max = ⟨some r, 1, []⟩ := by
  have hs := retryLoop_transient_spec b 0 max r (by omega)
    (fun k hk => absurd hk (by omega)) h max 0 (by omega) (le_refl 0)
  simpa [extract_ingredients_with_retries] using hs

/-- C6: the on-demand adapter raises exactly the failure-specific message
for each terminal failure kind: unresolvable source, non-JPEG/PNG
payload, oversized payload, retry exhaustion, and everything filtered
out; and format is checked before size, so a payload failing both yields
the invalid-format message. -/
theorem detect_tool_error_messages (cfg : Config) (getBytes : Option (List Nat))
    (pil : List Nat → List Nat)
    (attempts : List Nat → Nat → Option IngredientDetectionOutput) :
    (getBytes = none →
        Mcp.detect_ingredients_tool cfg getBytes pil attempts =
          .error ("Could not retrieve image bytes from provided data")) ∧
    (∀ b, getBytes = some b → b ≠ [] → validate_image_format b = false →
        Mcp.detect_ingredients_tool cfg getBytes pil attempts =
          .error ("Invalid image format. Only JPEG and PNG are supported.")) ∧
    (∀ b, getBytes = some b → b ≠ [] → validate_image_format b = true →
        validate_image_size cfg b = false →
        Mcp.detect_ingredients_tool cfg getBytes pil attempts =
          .error ("Image too large. Maximum size is " ++
            toString cfg.MAX_IMAGE_SIZE_MB ++ "MB")) ∧
    (∀ b, getBytes = some b → b ≠ [] → validate_image_format b = true →
        validate_image_size cfg b = true → (∀ bb n, attempts bb n = none) →
        Mcp.detect_ingredients_tool cfg getBytes pil attempts =
          .error ("Failed to extract ingredients from image. Please try another image.")) ∧
    (∀ b r, getBytes = some b → b ≠ [] → validate_image_format b = true →
        validate_image_size cfg b = true →
        attempts (if cfg.COMPRESS_IMG then compress_image cfg pil b else b) 0 = some r →
        filter_ingredients_by_confidence cfg r.ingredients r.confidence_scores = [] →
        Mcp.detect_ingredients_tool cfg getBytes pil attempts =
          .error ("No ingredients detected with sufficient confidence. Please try another image.")) ∧
    (∀ b, getBytes = some b → b ≠ [] → validate_image_format b = false →
        validate_image_size cfg b = false →
        Mcp.detect_ingredients_tool cfg getBytes pil attempts =
          .error ("Invalid image format. Only JPEG and PNG are supported.")) := by
  refine ⟨?_, ?_, ?_, ?_, ?_, ?_⟩
  · rintro rfl; rfl
  · rintro b rfl hne hfmt
    have hbe : b.isEmpty = false := by
      cases b with
      | nil => exact absurd rfl hne
      | cons x xs => rfl
    simp [Mcp.detect_ingredients_tool, hbe, hfmt]
  · rintro b rfl hne hfmt hsize
    have hbe : b.isEmpty = false := by
      cases b with
      | nil => exact absurd rfl hne
      | cons x xs => rfl
    simp [Mcp.detect_ingredients_tool, hbe, hfmt, hsize]
  · rintro b rfl hne hfmt hsize hatt
    have hbe : b.isEmpty = false := by
      cases b with
      | nil => exact absurd rfl hne
      | cons x xs => rfl
    have hres : (extract_ingredients_with_retries
        (fun n => toAttempt (attempts
          (if cfg.COMPRESS_IMG then compress_image cfg pil b else b) n)) 3).result = none :=
      retryLoop_result_none _ 3 (fun k r hk => by simp [toAttempt, hatt] at hk) 3 0 1 0 []
    simp [Mcp.detect_ingredients_tool, hbe, hfmt, hsize, hres]
  · rintro b r rfl hne hfmt hsize hatt hfil
    have hbe : b.isEmpty = false := by
      cases b with
      | nil => exact absurd rfl hne
      | cons x xs => rfl
    have hres := extract_retries_first_success
      (fun n => toAttempt (attempts
        (if cfg.COMPRESS_IMG then compress_image cfg pil b else b) n))
      r 3 (by omega) (by simp [toAttempt, hatt])
    simp [Mcp.detect_ingredients_tool, hbe, hfmt, hsize, hres, hfil]
  · rintro b rfl hne hfmt hsize
    have hbe : b.isEmpty = false := by
      cases b with
      | nil => exact absurd rfl hne
      | cons x xs => rfl
    simp [Mcp.detect_ingredients_tool, hbe, hfmt]

/-- Witness for C6: each failure kind on concrete inputs yields its
specific message; the too-large case uses a 0 MB budget so that an
8-byte PNG already exceeds it. -/
theorem detect_tool_error_messages_witness :
    Mcp.detect_ingredients_tool defaultConfig none id (fun _ _ => none) =
      .error ("Could not retrieve image bytes from provided data") ∧
    Mcp.detect_ingredients_tool defaultConfig (some corruptBytes) id (fun _ _ => none) =
      .error ("Invalid image format. Only JPEG and PNG are supported.") ∧
    Mcp.detect_ingredients_tool zeroSizeConfig (some pngBytes) id (fun _ _ => none) =
      .error ("Image too large. Maximum size is 0MB") ∧
    Mcp.detect_ingredients_tool defaultConfig (some pngBytes) id (fun _ _ => none) =
      .error ("Failed to extract ingredients from image. Please try another image.") ∧
    Mcp.detect_ingredients_tool defaultConfig (some pngBytes) id
        (fun _ _ => some lowConfResult) =
      .error ("No ingredients detected with sufficient confidence. Please try another image.") := by
  refine ⟨?_, ?_, ?_, ?_, ?_⟩
  · exact (detect_tool_error_messages defaultConfig none id (fun _ _ => none)).1 rfl
  · exact (detect_tool_error_messages defaultConfig (some corruptBytes) id
      (fun _ _ => none)).2.1 corruptBytes rfl (by decide) (by decide)
  · exact ((detect_tool_error_messages zeroSizeConfig (some pngBytes) id
      (fun _ _ => none)).2.2.1 pngBytes rfl (by decide) (by decide) (by decide)).trans
      (congrArg Except.error (by decide))
  · exact (detect_tool_error_messages defaultConfig (some pngBytes) id
      (fun _ _ => none)).2.2.2.1 pngBytes rfl (by decide) (by decide) (by decide)
      (fun _ _ => rfl)
  · exact (detect_tool_error_messages defaultConfig (some pngBytes) id
      (fun _ _ => some lowConfResult)).2.2.2.2.1 pngBytes lowConfResult rfl
      (by decide) (by decide) (by decide) rfl (by decide)

/-- C7: on success the legacy on-demand adapter returns the
confidence-filtered ingredient list, each survivor with its confidence
score (looked up with default 0), and the description summarizing the
top 5 ingredients with percent confidence plus a remainder count. -/
theorem detect_tool_success_returns_filtered (cfg : Config)
    (getBytes : Option (List Nat)) (attempts : Nat → Option Legacy.InferResult)
    (b : List Nat) (r : Legacy.InferResult)
    (hb : getBytes = some b) (hne : b ≠ [])
    (hfmt : validate_image_format b = true)
    (hsize : validate_image_size cfg b = true)
    (hatt : attempts 0 = some r)
    (hnz : filter_ingredients_by_confidence cfg r.ingredients r.confidence_scores ≠ []) :
    Legacy.detect_ingredients_tool cfg getBytes attempts =
      .ok ⟨filter_ingredients_by_confidence cfg r.ingredients r.confidence_scores,
           Legacy.scoresFromKeys r.confidence_scores
             (filter_ingredients_by_confidence cfg r.ingredients r.confidence_scores),
           Legacy.build_image_description
             (filter_ingredients_by_confidence cfg r.ingredients r.confidence_scores)
             r.confidence_scores⟩ := by
  subst hb
  have hbe : b.isEmpty = false := by
    cases b with
    | nil => exact absurd rfl hne
    | cons x xs => rfl
  have hres := extract_retries_first_success (fun n => toAttempt (attempts n)) r 3
    (by omega) (by simp [toAttempt, hatt])
  have hnz' : ¬((filter_ingredients_by_confidence cfg r.ingredients
      r.confidence_scores).isEmpty = true) :=
    fun hcon => hnz (List.isEmpty_iff.mp hcon)
  simp [Legacy.detect_ingredients_tool, hbe, hfmt, hsize, hres, hnz']

/-- Witness for C7, the end-to-end scenario of the spec: PNG bytes, the
inference mock returning tomato at 0.95 and basil at 0.60, threshold
0.7: the adapter returns ingredients tomato only, its score, and the
description with the percent rendering. -/
theorem detect_tool_success_returns_filtered_witness :
    Legacy.detect_ingredients_tool defaultConfig (some pngBytes)
        (fun _ => some inferTomatoBasil) =
      .ok ⟨["tomato"], [("tomato", mkRat 19 20)],
           "Detected ingredients: tomato (95%)"⟩ := by
  have h := detect_tool_success_returns_filtered defaultConfig (some pngBytes)
    (fun _ => some inferTomatoBasil) pngBytes inferTomatoBasil rfl (by decide)
    (by decide) (by decide) rfl (by decide)
  exact h.trans (congrArg Except.ok (by decide))

/-! ## Parser theorems -/

/-- C8: the two-stage lenient parse.  Stage 1 parses the entire text: a
usable (truthy) value is validated directly.  When stage 1 yields no
usable value, stage 2 parses the brace span (first left brace to last
right brace): a usable value is validated, and when neither stage
produces a usable value the parser returns None.  The parser is a total
function: no exception escapes. -/
theorem parse_two_stage (jl : String → Option Json) (text : String) :
    (∀ v, jl text = some v → jtruthy v = true →
        parse_gemini_response jl text = validate_output v) ∧
    (usableParse (jl text) = false →
      ∀ sub w, extract_json_span text = some sub → jl sub = some w → jtruthy w = true →
        parse_gemini_response jl text = validate_output w) ∧
    (usableParse (jl text) = false →
      (∀ sub, extract_json_span text = some sub → usableParse (jl sub) = false) →
      parse_gemini_response jl text = none) := by
  refine ⟨?_, ?_, ?_⟩
  · intro v hv ht
    simp [parse_gemini_response, hv, usableParse, ht]
  · intro hu sub w hsub hw ht
    simp [parse_gemini_response, hu, hsub, hw, ht]
  · intro hu hsub2
    cases hsp : extract_json_span text with
    | none => simp [parse_gemini_response, hu, hsp]
    | some sub =>
      have := hsub2 sub hsp
      cases hw : jl sub with
      | none => simp [parse_gemini_response, hu, hsp, hw]
      | some w =>
        have htw : jtruthy w = false := by
          rw [hw] at this
          simpa [usableParse] using this
        simp [parse_gemini_response, hu, hsp, hw, htw]

/-- Witness for C8: prose followed by a brace span; whole-text parse
fails, the span parse succeeds and is validated into the model. -/
theorem parse_two_stage_witness :
    parse_gemini_response jlFixture ("json: " ++ spanFixture ++ "!") =
      some ⟨["tomato"], [("tomato", mkRat 19 20)], none⟩ := by
  have h := (parse_two_stage jlFixture ("json: " ++ spanFixture ++ "!")).2.1
    (by decide) spanFixture goodJson (by decide) rfl (by decide)
  exact h.trans (by decide)

/-! ## Model-construction lemmas -/

/-- Every entry of an insert-or-overwrite update comes from the original
dict or is the inserted pair. -/
theorem dictInsert_mem {β : Type} (d : List (String × β)) (k : String) (v : β)
    (p : String × β) (hp : p ∈ dictInsert d k v) : p ∈ d ∨ p = (k, v) := by
  unfold dictInsert at hp
  split at hp
  · obtain ⟨q, hq, hq2⟩ := List.mem_map.mp hp
    by_cases hqk : (q.1 == k) = true
    · rw [if_pos hqk] at hq2
      right; exact hq2.symm
    · rw [if_neg hqk] at hq2
      left; exact hq2 ▸ hq
  · rcases List.mem_append.mp hp with h | h
    · left; exact h
    · right; simpa using h

/-- The keys after an insert-or-overwrite update are the old keys plus
the inserted key. -/
theorem dictInsert_key_mem {β : Type} (d : List (String × β)) (k : String) (v : β)
    (k' : String) :
    (∃ p ∈ dictInsert d k v, p.1 = k') ↔ (∃ p ∈ d, p.1 = k') ∨ k' = k := by
  constructor
  · rintro ⟨p, hp, rfl⟩
    rcases dictInsert_mem d k v p hp with h | h
    · left; exact ⟨p, h, rfl⟩
    · right; rw [h]
  · rintro (⟨p, hp, rfl⟩ | rfl)
    · unfold dictInsert
      split
      · refine ⟨if (p.1 == k) then (k, v) else p, List.mem_map.mpr ⟨p, hp, rfl⟩, ?_⟩
        by_cases hpk : (p.1 == k) = true
        · rw [if_pos hpk]
          exact (eq_of_beq hpk).symm
        · rw [if_neg hpk]
      · exact ⟨p, List.mem_append_left _ hp, rfl⟩
    · unfold dictInsert
      split
      · rename_i hany
        obtain ⟨q, hq, hqk⟩ := List.any_eq_true.mp hany
        refine ⟨(k', v), List.mem_map.mpr ⟨q, hq, by simp [hqk]⟩, rfl⟩
      · exact ⟨(k', v), List.mem_append_right _ (by simp), rfl⟩

/-- An invariant preserved by entries survives an insert-or-overwrite
update. -/
theorem dictInsert_forall {β : Type} (P : String × β → Prop)
    (d : List (String × β)) (k : String) (v : β)
    (hd : ∀ p ∈ d, P p) (hkv : P (k, v)) : ∀ p ∈ dictInsert d k v, P p := by
  intro p hp
  rcases dictInsert_mem d k v p hp with h | h
  · exact hd p h
  · exact h ▸ hkv

/-- Lower-casing is idempotent on characters. -/
theorem lowerChar_idem (c : Char) : lowerChar (lowerChar c) = lowerChar c := by
  have htab : ∀ p ∈ asciiLowerPairs, lowerChar p.2 = p.2 := by decide
  cases hf : asciiLowerPairs.find? (fun p => p.1 == c) with
  | none =>
    have hc : lowerChar c = c := by unfold lowerChar; rw [hf]
    rw [hc, hc]
  | some p =>
    have hc : lowerChar c = p.2 := by unfold lowerChar; rw [hf]
    rw [hc]
    exact htab p (List.mem_of_find?_eq_some hf)

/-- Lower-casing is idempotent on strings. -/
theorem lowerStr_idem (s : String) : lowerStr (lowerStr s) = lowerStr s := by
  unfold lowerStr
  have h1 : (String.mk (s.toList.map lowerChar)).toList = s.toList.map lowerChar := rfl
  rw [h1, List.map_map]
  congr 1
  exact List.map_congr_left (fun c _ => lowerChar_idem c)

/-- Every entry of a validated score dict is in range and has a
lower-cased key. -/
theorem scoresLoop_sound (fields : List (String × Json)) :
    ∀ acc d, scoresLoop acc fields = some d →
      (∀ p ∈ acc, (0 < p.2 ∧ p.2 ≤ 1) ∧ p.1 = lowerStr p.1) →
      ∀ p ∈ d, (0 < p.2 ∧ p.2 ≤ 1) ∧ p.1 = lowerStr p.1 := by
  induction fields with
  | nil =>
    intro acc d h hacc
    obtain rfl : acc = d := by simpa [scoresLoop] using h
    exact hacc
  | cons kv rest ih =>
    intro acc d h hacc
    cases hf : jsonToFloat kv.2 with
    | none => simp [scoresLoop, hf] at h
    | some f =>
      simp only [scoresLoop, hf] at h
      split at h
      · rename_i hrange
        exact ih _ d h
          (dictInsert_forall _ acc _ _ hacc ⟨hrange, (lowerStr_idem _).symm⟩)
      · exact absurd h (by simp)

/-- The keys of a validated score dict are exactly the stripped,
lower-cased raw keys (plus whatever the accumulator already held). -/
theorem scoresLoop_keys (fields : List (String × Json)) :
    ∀ acc d, scoresLoop acc fields = some d → ∀ k,
      ((∃ p ∈ d, p.1 = k) ↔
        (∃ p ∈ acc, p.1 = k) ∨ ∃ q ∈ fields, lowerStr (pyStrip q.1) = k) := by
  induction fields with
  | nil =>
    intro acc d h k
    obtain rfl : acc = d := by simpa [scoresLoop] using h
    simp
  | cons kv rest ih =>
    intro acc d h k
    cases hf : jsonToFloat kv.2 with
    | none => simp [scoresLoop, hf] at h
    | some f =>
      simp only [scoresLoop, hf] at h
      split at h
      · rw [ih _ d h k, dictInsert_key_mem]
        simp only [List.mem_cons]
        constructor
        · rintro ((h1 | rfl) | h2)
          · exact Or.inl h1
          · exact Or.inr ⟨kv, Or.inl rfl, rfl⟩
          · obtain ⟨q, hq, hqe⟩ := h2
            exact Or.inr ⟨q, Or.inr hq, hqe⟩
        · rintro (h1 | ⟨q, (rfl | hq), hqe⟩)
          · exact Or.inl (Or.inl h1)
          · exact Or.inl (Or.inr hqe.symm)
          · exact Or.inr ⟨q, hq, hqe⟩
      · exact absurd h (by simp)

/-- All raw values convertible and in range: validation succeeds. -/
theorem scoresLoop_isSome (fields : List (String × Json)) :
    ∀ acc, (∀ q ∈ fields, ∃ f, jsonToFloat q.2 = some f ∧ 0 < f ∧ f ≤ 1) →
      ∃ d, scoresLoop acc fields = some d := by
  induction fields with
  | nil => intro acc _; exact ⟨acc, rfl⟩
  | cons kv rest ih =>
    intro acc h
    obtain ⟨f, hf, hr⟩ := h kv (by simp)
    obtain ⟨d, hd⟩ := ih (dictInsert acc (lowerStr (pyStrip kv.1)) f)
      (fun q hq => h q (by simp [hq]))
    refine ⟨d, ?_⟩
    simp only [scoresLoop, hf, if_pos hr]
    exact hd

/-- A non-convertible or out-of-range raw value: validation raises. -/
theorem scoresLoop_none (fields : List (String × Json)) :
    ∀ acc, (∃ q ∈ fields, jsonToFloat q.2 = none ∨
          ∃ f, jsonToFloat q.2 = some f ∧ ¬(0 < f ∧ f ≤ 1)) →
      scoresLoop acc fields = none := by
  induction fields with
  | nil => intro acc h; simp at h
  | cons kv rest ih =>
    intro acc h
    obtain ⟨q, hq, hcase⟩ := h
    rcases List.mem_cons.mp hq with rfl | hq'
    · rcases hcase with hnone | ⟨f, hf, hbad⟩
      · simp [scoresLoop, hnone]
      · simp only [scoresLoop, hf, if_neg hbad]
    · cases hf : jsonToFloat kv.2 with
      | none => simp [scoresLoop, hf]
      | some f =>
        by_cases hr : 0 < f ∧ f ≤ 1
        · simp only [scoresLoop, hf, if_pos hr]
          exact ih _ ⟨q, hq', hcase⟩
        · simp only [scoresLoop, hf, if_neg hr]

/-- The string-list injection round-trips through the pydantic coercion. -/
theorem asStrList_jStrList (l : List String) : asStrList (jStrList l) = some l := by
  have h : ∀ m : List String, strItems (m.map Json.str) = some m := by
    intro m
    induction m with
    | nil => rfl
    | cons x xs ih => simp [strItems, ih]
  exact h l

/-- The optional-string injection round-trips through the pydantic
coercion. -/
theorem asOptStr_jOptStr (d : Option String) : asOptStr (jOptStr d) = some d := by
  cases d <;> rfl

/-- C9: for every successfully constructed IngredientDetectionOutput,
every ingredient name has a corresponding confidence entry (at the
lower-cased name, as the construction-time validator enforces), and
every confidence score lies in (0.0, 1.0]; construction fails when a
score is out of range or an ingredient has no matching entry; and with
every listed ingredient covered, construction succeeds even when
confidence_scores holds extra keys (they are tolerated), provided the
pydantic field constraints (1..50 ingredients, description at most 500
characters) hold. -/
theorem ingredient_output_construction_invariants
    (names : List String) (scores : List (String × Rat)) (desc : Option String) :
    (∀ out, mkIngredientDetectionOutputT names scores desc = some out →
        (∀ i ∈ out.ingredients, ∃ p ∈ out.confidence_scores, p.1 = lowerStr i) ∧
        (∀ p ∈ out.confidence_scores, 0 < p.2 ∧ p.2 ≤ 1)) ∧
    ((∃ p ∈ scores, ¬(0 < p.2 ∧ p.2 ≤ 1)) →
        mkIngredientDetectionOutputT names scores desc = none) ∧
    ((∃ i ∈ names, ∀ q ∈ scores, lowerStr (pyStrip q.1) ≠ lowerStr (pyStrip i)) →
        mkIngredientDetectionOutputT names scores desc = none) ∧
    ((∀ p ∈ scores, 0 < p.2 ∧ p.2 ≤ 1) → names ≠ [] → names.length ≤ 50 →
        (∀ dsc, desc = some dsc → (pyStrip dsc).length ≤ 500) →
        (∀ i ∈ names, ∃ q ∈ scores, lowerStr (pyStrip q.1) = lowerStr (pyStrip i)) →
        (mkIngredientDetectionOutputT names scores desc).isSome = true) := by
  refine ⟨?_, ?_, ?_, ?_⟩
  · intro out hout
    simp only [mkIngredientDetectionOutputT, mkIngredientDetectionOutput,
      validate_confidence_scores, jScores, asStrList_jStrList, asOptStr_jOptStr] at hout
    split at hout
    · exact absurd hout (by simp)
    · split at hout
      · exact absurd hout (by simp)
      · rename_i sc hval
        split at hout
        · exact absurd hout (by simp)
        · split at hout
          · rename_i hcov
            obtain rfl :
                (⟨names.map pyStrip, sc, desc.map pyStrip⟩ : IngredientDetectionOutput) = out :=
              Option.some.inj hout
            constructor
            · intro i hi
              have hc := List.all_eq_true.mp hcov i hi
              obtain ⟨p, hp, hpe⟩ := List.any_eq_true.mp hc
              have hkey := (scoresLoop_sound _ [] sc hval (by simp) p hp).2
              refine ⟨p, hp, ?_⟩
              have hlp : lowerStr p.1 = lowerStr i := by simpa using hpe
              rw [hkey, hlp]
            · intro p hp
              exact (scoresLoop_sound _ [] sc hval (by simp) p hp).1
          · exact absurd hout (by simp)
  · rintro ⟨p, hp, hbad⟩
    simp only [mkIngredientDetectionOutputT, mkIngredientDetectionOutput,
      validate_confidence_scores, jScores, asStrList_jStrList, asOptStr_jOptStr]
    split
    · rfl
    · simp only [scoresLoop_none _ []
        ⟨(p.1, Json.num p.2),
         List.mem_map_of_mem (fun q => (q.1, Json.num q.2)) hp,
         Or.inr ⟨p.2, rfl, hbad⟩⟩]
  · rintro ⟨i0, hi0, hmiss⟩
    simp only [mkIngredientDetectionOutputT, mkIngredientDetectionOutput,
      validate_confidence_scores, jScores, asStrList_jStrList, asOptStr_jOptStr]
    split
    · rfl
    · split
      · rfl
      · rename_i sc hval
        split
        · rfl
        · split
          · rename_i hcov
            exfalso
            have hc := List.all_eq_true.mp hcov (pyStrip i0) (List.mem_map_of_mem _ hi0)
            obtain ⟨p, hp, hpe⟩ := List.any_eq_true.mp hc
            have hkey := (scoresLoop_sound _ [] sc hval (by simp) p hp).2
            have hkeys := (scoresLoop_keys _ [] sc hval p.1).mp ⟨p, hp, rfl⟩
            obtain ⟨q, hqf, hqe⟩ := hkeys.resolve_left (by simp)
            obtain ⟨q0, hq0, rfl⟩ := List.mem_map.mp hqf
            have hbe : lowerStr p.1 = lowerStr (pyStrip i0) := by simpa using hpe
            apply hmiss q0 hq0
            calc lowerStr (pyStrip q0.1) = p.1 := hqe
              _ = lowerStr p.1 := hkey
              _ = lowerStr (pyStrip i0) := hbe
          · rfl
  · intro hall hne hlen hdesc hcov
    simp only [mkIngredientDetectionOutputT, mkIngredientDetectionOutput,
      validate_confidence_scores, jScores, asStrList_jStrList, asOptStr_jOptStr]
    have h1 : 0 < names.length := List.length_pos.mpr hne
    rw [if_neg (by simp only [List.length_map]; omega)]
    obtain ⟨sc, hsc⟩ := scoresLoop_isSome (scores.map fun p => (p.1, Json.num p.2)) []
      (by
        intro q hq
        obtain ⟨p, hp, rfl⟩ := List.mem_map.mp hq
        exact ⟨p.2, rfl, hall p hp⟩)
    simp only [hsc]
    have hdlen : ¬((match desc.map pyStrip with
        | some s => decide (500 < s.length)
        | none => false) = true) := by
      cases desc with
      | none => simp
      | some dsc =>
        have hd := hdesc dsc rfl
        simp only [Option.map_some', decide_eq_true_eq]
        omega
    rw [if_neg hdlen]
    have hcov' : ((names.map pyStrip).all fun i =>
        sc.any fun p => lowerStr p.1 == lowerStr i) = true := by
      rw [List.all_eq_true]
      intro i hi
      obtain ⟨i0, hi0, rfl⟩ := List.mem_map.mp hi
      obtain ⟨q, hq, hqe⟩ := hcov i0 hi0
      have hex : ∃ p ∈ sc, p.1 = lowerStr (pyStrip q.1) :=
        (scoresLoop_keys _ [] sc hsc _).mpr
          (Or.inr ⟨(q.1, Json.num q.2),
            List.mem_map_of_mem (fun r => (r.1, Json.num r.2)) hq, rfl⟩)
      obtain ⟨p, hp, hpk⟩ := hex
      rw [List.any_eq_true]
      refine ⟨p, hp, ?_⟩
      have hlp : lowerStr p.1 = lowerStr (pyStrip i0) := by
        rw [hpk, lowerStr_idem, hqe]
      simpa using hlp
    rw [if_pos hcov']
    rfl

/-- Witness for C9: construction succeeds with an extra score key
present, and fails when the listed ingredient has no matching entry. -/
theorem ingredient_output_construction_invariants_witness :
    (mkIngredientDetectionOutputT ["tomato"]
        [("tomato", mkRat 19 20), ("extra", mkRat 1 2)] none).isSome = true ∧
    mkIngredientDetectionOutputT ["tomato"] [("pepper", mkRat 1 2)] none = none :=
  ⟨(ingredient_output_construction_invariants ["tomato"]
      [("tomato", mkRat 19 20), ("extra", mkRat 1 2)] none).2.2.2
      (by decide) (by decide) (by decide) (fun d hd => nomatch hd) (by decide),
   (ingredient_output_construction_invariants ["tomato"]
      [("pepper", mkRat 1 2)] none).2.2.1 (by decide)⟩

/-- C10: construction strips and lower-cases the confidence keys while
the ingredient entries keep their original casing (only stripped); with
a positive threshold the case-sensitive lookup of the confidence filter
then misses the lower-cased key for any ingredient that differs from its
lower-cased form, defaults its confidence to 0.0, and drops it — even
though the case-insensitive matching at construction time accepted it. -/
theorem lowercased_keys_break_filter
    (names : List String) (scores : List (String × Rat)) (desc : Option String)
    (cfg : Config) (out : IngredientDetectionOutput)
    (hmk : mkIngredientDetectionOutputT names scores desc = some out)
    (ht : 0 < cfg.MIN_INGREDIENT_CONFIDENCE) :
    out.ingredients = names.map pyStrip ∧
    (∀ p ∈ out.confidence_scores, p.1 = lowerStr p.1) ∧
    (∀ i ∈ out.ingredients, i ≠ lowerStr i →
        i ∉ filter_ingredients_by_confidence cfg out.ingredients out.confidence_scores) := by
  simp only [mkIngredientDetectionOutputT, mkIngredientDetectionOutput,
    validate_confidence_scores, jScores, asStrList_jStrList, asOptStr_jOptStr] at hmk
  split at hmk
  · exact absurd hmk (by simp)
  · split at hmk
    · exact absurd hmk (by simp)
    · rename_i sc hval
      split at hmk
      · exact absurd hmk (by simp)
      · split at hmk
        · obtain rfl :
              (⟨names.map pyStrip, sc, desc.map pyStrip⟩ : IngredientDetectionOutput) = out :=
            Option.some.inj hmk
          have hkeys : ∀ p ∈ sc, p.1 = lowerStr p.1 :=
            fun p hp => (scoresLoop_sound _ [] sc hval (by simp) p hp).2
          refine ⟨rfl, hkeys, ?_⟩
          intro i _ hne hmem
          have hget : dictGet sc i 0 = 0 := by
            unfold dictGet
            cases hf : sc.find? (fun p => p.1 == i) with
            | none => rfl
            | some p =>
              exfalso
              have hp := List.find?_some hf
              have hpmem := List.mem_of_find?_eq_some hf
              have hpi : p.1 = i := by simpa using hp
              exact hne (by rw [← hpi]; exact hkeys p hpmem)
          have hge := (List.mem_filter.mp hmem).2
          rw [hget, decide_eq_true_eq] at hge
          exact absurd (lt_of_lt_of_le ht hge) (lt_irrefl 0)
        · exact absurd hmk (by simp)

/-- Witness for C10: the ingredient Tomato is accepted at construction
against the key tomato, but the filter at threshold 0.7 then drops it. -/
theorem lowercased_keys_break_filter_witness :
    mkIngredientDetectionOutputT ["Tomato"] [("Tomato", mkRat 9 10)] none =
      some ⟨["Tomato"], [("tomato", mkRat 9 10)], none⟩ ∧
    "Tomato" ∉ filter_ingredients_by_confidence defaultConfig (["Tomato"])
      ([("tomato", mkRat 9 10)]) := by
  have hmk : mkIngredientDetectionOutputT ["Tomato"] [("Tomato", mkRat 9 10)] none =
      some ⟨["Tomato"], [("tomato", mkRat 9 10)], none⟩ := by decide
  refine ⟨hmk, ?_⟩
  exact (lowercased_keys_break_filter ["Tomato"] [("Tomato", mkRat 9 10)] none
    defaultConfig ⟨["Tomato"], [("tomato", mkRat 9 10)], none⟩ hmk (by decide)).2.2
    ("Tomato") (by decide) (by decide)


